import Mathlib

/-!
A verification development for the MindSpore ChatGLM inference core
(mindnlp/models/glm/chatglm.py).  The decoder's KV-cache write protocol,
attention-mask construction, attention-score scaling, scaled residual
wiring, rotary embedding tables, streaming generation driver,
invalid-score guard and generation-input preparation are embedded
shallowly: tensors become index functions or lists, float arithmetic is
idealised over the rationals or the reals, and Python's ValueError-raising
index lookups become Except-valued functions.
-/

set_option maxHeartbeats 1000000

namespace ChatGLM

/-! ### KV cache writes — SelfAttention.attention_fn, lines 308-320 -/

/-- The write that SelfAttention.attention_fn (lines 310-317) performs on one
cache buffer.  For a prefill (seq_len > 1) the buffer is first zeroed
(ops.assign with zeros_like, lines 312-313) and then rows [0, seqLen) are
scattered from the new rows (ops.scatter_update with indices = arange seqLen);
for a decode step (seq_len = 1) the single row startPos is overwritten with
the only new row, row 0 (indices = start_pos.expand_dims 0).  A cache row
(one position's per-batch/head key or value slice) is abstracted as a value
of a type with a zero. -/
def cacheWrite {α : Type} [Zero α] (cache : ℕ → α) (seqLen startPos : ℕ)
    (newRows : ℕ → α) : ℕ → α :=
  if 1 < seqLen then fun i => if i < seqLen then newRows i else 0
  else fun i => if i = startPos then newRows 0 else cache i

/-- attention_fn applies the identical update to cache_k (from key_layer) and
cache_v (from value_layer), lines 310-317. -/
def cacheWritePair {α : Type} [Zero α] (cacheK cacheV : ℕ → α) (seqLen startPos : ℕ)
    (keys vals : ℕ → α) : (ℕ → α) × (ℕ → α) :=
  (cacheWrite cacheK seqLen startPos keys, cacheWrite cacheV seqLen startPos vals)

/-- k successive decode-step cache writes (seq_len = 1) at start_pos values
L, L+1, ..., L+k-1: step j writes row g j at index L + j. -/
def decodeWrites {α : Type} [Zero α] (cache : ℕ → α) (L : ℕ) (g : ℕ → α) : ℕ → ℕ → α
  | 0 => cache
  | k + 1 => cacheWrite (decodeWrites cache L g k) 1 (L + k) (fun _ => g k)

/-! ### Attention-mask construction — ChatGLMModel.construct, lines 712-718 -/

/-- ChatGLMModel.construct lines 712-718.  The supplied mask (as it stands at
line 712; boolean, true = disallowed) has key width seqLen, the one produced
by get_masks.  Prefill (seq_len > 1): ops.concat pads the key axis with
bucketSize - seqLen columns of ones (= true = masked), so column j reads the
supplied mask for j < seqLen and true for j in [seqLen, bucketSize).  Decode
(seq_len = 1): the supplied mask is discarded and the single synthesized row
is arange(bucketSize) > startPos + seqLen. -/
def construct_attention_mask (supplied : ℕ → ℕ → Bool) (seqLen startPos bucketSize : ℕ) :
    ℕ → ℕ → Bool :=
  if 1 < seqLen then fun q j => if j < seqLen then supplied q j else true
  else fun _ j => decide (startPos + seqLen < j)

/-! ### Attention-score scaling — SelfAttention.attention_fn, lines 323-356 -/

/-- Softmax over a list of reals, the idealisation of ops.softmax(axis = -1). -/
noncomputable def softmaxR (xs : List ℝ) : List ℝ :=
  xs.map (fun x => Real.exp x / (xs.map Real.exp).sum)

/-- The pre-softmax score pipeline of attention_fn for one query row, lines
323-351.  hd is the head dimension (hidden_size = key_layer.shape[-1], line
323), coeff = layer_id + 1 (line 325).  The query is divided by
sqrt(hd) * coeff (line 328, scaling_attention_score is set to True in
SelfAttention.__init__ and never changed), then dotted with each cached key
(lines 342-345), masked positions of the raw scores are set to -10000.0
(line 349, masked_fill), and the masked scores are multiplied by coeff
(line 351).  k j d is component d of cached key j. -/
noncomputable def attention_fn_scores (dim : ℕ) (q : ℕ → ℝ) (k : ℕ → ℕ → ℝ)
    (mask : ℕ → Bool) (hd : ℝ) (layerId : ℕ) : ℕ → ℝ :=
  let coeff : ℝ := (layerId : ℝ) + 1
  let scaledQ : ℕ → ℝ := fun d => q d / (Real.sqrt hd * coeff)
  let raw : ℕ → ℝ := fun j => ((List.range dim).map (fun d => scaledQ d * k j d)).sum
  let masked : ℕ → ℝ := fun j => if mask j = true then -10000 else raw j
  fun j => masked j * coeff

/-- Lines 353-354: softmax over the key axis is applied to the scaled, masked,
re-multiplied scores (numKeys = bucket_size keys). -/
noncomputable def attention_fn_probs (numKeys dim : ℕ) (q : ℕ → ℝ) (k : ℕ → ℕ → ℝ)
    (mask : ℕ → Bool) (hd : ℝ) (layerId : ℕ) : List ℝ :=
  softmaxR ((List.range numKeys).map (attention_fn_scores dim q k mask hd layerId))

/-! ### Scaled residual wiring — GLMBlock.construct, lines 492-539, and
ChatGLMModel.get_layer, lines 637-653 -/

/-- The residual scale of GLMBlock.construct line 526:
alpha = (2 * num_layers) ** 0.5. -/
noncomputable def glmAlpha (numLayers : ℕ) : ℝ := Real.sqrt (2 * numLayers)

/-- GLMBlock.construct, lines 506-539, with the two LayerNorms, the attention
and the GLU as opaque vector functions and hidden vectors as index functions:
attention_input = input_layernorm x (line 508); attention_output on it
(line 511); hidden = attention_input * alpha + attention_output (line 527);
mlp_input = post_attention_layernorm hidden (line 529); the block output is
mlp_input * alpha + mlp_output (line 535). -/
noncomputable def GLMBlock_construct (input_layernorm post_attention_layernorm
    attention mlp : (ℕ → ℝ) → ℕ → ℝ) (numLayers : ℕ) (x : ℕ → ℝ) : ℕ → ℝ :=
  let attention_input := input_layernorm x
  let attention_output := attention attention_input
  let alpha := glmAlpha numLayers
  let hidden_states := fun i => attention_input i * alpha + attention_output i
  let mlp_input := post_attention_layernorm hidden_states
  let mlp_output := mlp mlp_input
  fun i => mlp_input i * alpha + mlp_output i

/-- ChatGLMModel.get_layer (lines 637-649) constructs every GLMBlock without
passing num_layers, so the GLMBlock.__init__ default num_layers = 28
(line 452) is what every layer's residual scale uses. -/
def getLayer_num_layers : ℕ := 28

/-- A layer as ChatGLMModel builds it: GLMBlock_construct with
num_layers = 28 (the default), whatever config.num_layers
(cfgNumLayers, recorded at line 622 but not forwarded by get_layer) is. -/
noncomputable def ChatGLMModel_layer_construct (input_layernorm post_attention_layernorm
    attention mlp : (ℕ → ℝ) → ℕ → ℝ) (cfgNumLayers : ℕ) (x : ℕ → ℝ) : ℕ → ℝ :=
  GLMBlock_construct input_layernorm post_attention_layernorm attention mlp
    getLayer_num_layers x

/-! ### Rotary embedding — RotaryEmbedding, lines 131-145, rotate_half and
apply_rotary_pos_emb_index, lines 147-159 -/

/-- RotaryEmbedding.__init__ line 135:
inv_freq = 1 / base ** (arange(0, dim, 2) / dim), i.e. entry i (of dim/2)
is 1 / base ^ (2 i / dim). -/
noncomputable def inv_freq (dim : ℕ) (base : ℝ) : List ℝ :=
  (List.range (dim / 2)).map (fun i => 1 / base ^ (((2 * i : ℕ) : ℝ) / (dim : ℝ)))

/-- Row p of freqs = outer(t, inv_freq), line 137. -/
noncomputable def freqs_row (dim : ℕ) (base : ℝ) (p : ℕ) : List ℝ :=
  (inv_freq dim base).map (fun f => (p : ℝ) * f)

/-- Row p of cos_cached: emb = concat(freqs, freqs) duplicated along the last
axis (line 138), then cos (line 139). -/
noncomputable def cos_cached (dim : ℕ) (base : ℝ) (p : ℕ) : List ℝ :=
  (freqs_row dim base p ++ freqs_row dim base p).map Real.cos

/-- Row p of sin_cached, line 140. -/
noncomputable def sin_cached (dim : ℕ) (base : ℝ) (p : ℕ) : List ℝ :=
  (freqs_row dim base p ++ freqs_row dim base p).map Real.sin

/-- rotate_half, lines 147-150: chunk x into two equal halves x1, x2 along the
last axis and return concat(-x2, x1). -/
noncomputable def rotate_half (x : List ℝ) : List ℝ :=
  (x.drop (x.length / 2)).map (fun v => -v) ++ x.take (x.length / 2)

/-- apply_rotary_pos_emb_index, lines 152-159, for one position: with cos and
sin the table rows at that position,
q ↦ q * cos + rotate_half q * sin and likewise for k (lines 157-158),
elementwise along the head dimension. -/
noncomputable def apply_rotary_pos_emb_index (q k cosRow sinRow : List ℝ) :
    List ℝ × List ℝ :=
  (List.zipWith (fun a b => a + b) (List.zipWith (fun a b => a * b) q cosRow)
     (List.zipWith (fun a b => a * b) (rotate_half q) sinRow),
   List.zipWith (fun a b => a + b) (List.zipWith (fun a b => a * b) k cosRow)
     (List.zipWith (fun a b => a * b) (rotate_half k) sinRow))

/-! ### Invalid-score guard — InvalidScoreLogitsProcessor, lines 89-95 -/

/-- A float score value: finite (idealised as a rational), NaN, +inf or -inf. -/
inductive FVal
  | fin : ℚ → FVal
  | nan : FVal
  | pinf : FVal
  | ninf : FVal
  deriving DecidableEq

/-- ops.isnan on one value. -/
def FVal.isNaN : FVal → Bool
  | .nan => true
  | _ => false

/-- ops.isinf on one value (true for either infinity). -/
def FVal.isInfVal : FVal → Bool
  | .pinf => true
  | .ninf => true
  | _ => false

/-- InvalidScoreLogitsProcessor.__call__, lines 91-95: if any score is NaN or
Inf, replace the whole row by zeros_like(scores) and set index 5 to 5e4;
otherwise return the scores unchanged. -/
def invalid_score_process (scores : List FVal) : List FVal :=
  if scores.any (fun v => v.isNaN || v.isInfVal) then
    (List.range scores.length).map (fun j => if j = 5 then FVal.fin 50000 else FVal.fin 0)
  else scores

/-- The real number a finite score denotes (NaN and the infinities, which
never survive the guard, are sent to 0). -/
noncomputable def FVal.toReal : FVal → ℝ
  | .fin q => (q : ℝ)
  | _ => 0

/-! ### Generation driver — ChatGLMForConditionalGeneration.stream_generate,
lines 1003-1106 -/

/-- Line 1101 for one batch element: the unfinished flag is multiplied by
sum(next_tokens != i for i in eos_token_id), the count of configured eos ids
the new token differs from. -/
def update_unfinished (u : ℕ) (tok : ℤ) (eos : List ℤ) : ℕ :=
  u * (eos.map (fun i => if tok = i then 0 else 1)).sum

/-- Modelled from the spec: the max-length stopping criterion consumed as a
black-box callable (mindnlp.generation.stopping_criteria, not under src),
per spec section 4.6: the driver reaches DONE when "the sequence length
would exceed the configured maximum", "transitioning to DONE strictly at
that boundary" given max_length = L. -/
def maxLengthCriteria (maxLength : ℕ) (ids : List ℤ) : Bool :=
  decide (maxLength ≤ ids.length)

/-- What one run of the stream_generate while-loop produces: the final token
sequence, the sequences yielded to the consumer (line 1106), the start_pos
value passed to each forward call (prepare_inputs_for_generation: 0 at the
prefill since model_kwargs carries none, line 867; afterwards the value
stored at line 1097), and the final unfinished flag. -/
structure StreamResult where
  inputIds : List ℤ
  yields : List (List ℤ)
  startPosTrace : List ℕ
  unfinished : ℕ

/-- The while-loop of stream_generate, lines 1073-1106, for one batch element,
with the whole forward pass, logits processing and greedy/sampling choice
abstracted as nextTok (a function of the current sequence, fixed weights) and
the stopping-criteria callable as stop.  Each iteration appends the sampled
token (line 1096), records start_pos = the new sequence length (line 1097)
into the model kwargs, updates the unfinished flag (line 1101), and then
either breaks (line 1104-1105) — before yielding — or yields the grown
sequence (line 1106) and continues.  fuel bounds the number of iterations so
the recursion is structural; every run examined below stops before fuel
runs out. -/
def streamGenerateLoop (nextTok : List ℤ → ℤ) (eos : List ℤ) (stop : List ℤ → Bool) :
    ℕ → List ℤ → Option ℕ → ℕ → StreamResult
  | 0, ids, _, u => ⟨ids, [], [], u⟩
  | fuel + 1, ids, kw, u =>
    if update_unfinished u (nextTok ids) eos = 0 ∨ stop (ids ++ [nextTok ids]) = true then
      ⟨ids ++ [nextTok ids], [], [kw.getD 0], update_unfinished u (nextTok ids) eos⟩
    else
      let rest := streamGenerateLoop nextTok eos stop fuel (ids ++ [nextTok ids])
        (some (ids ++ [nextTok ids]).length) (update_unfinished u (nextTok ids) eos)
      ⟨rest.inputIds, (ids ++ [nextTok ids]) :: rest.yields,
        kw.getD 0 :: rest.startPosTrace, rest.unfinished⟩

/-- stream_generate entry: the loop starts from the prompt with no start_pos in
the model kwargs (so the first forward call, the prefill, runs with
start_pos = 0) and unfinished = 1 (line 1069). -/
def stream_generate (nextTok : List ℤ → ℤ) (eos : List ℤ) (stop : List ℤ → Bool)
    (fuel : ℕ) (prompt : List ℤ) : StreamResult :=
  streamGenerateLoop nextTok eos stop fuel prompt none 1

/-- The token sequence after n driver steps from ids under nextTok: each step
appends the token sampled from the current sequence. -/
def genIds (nextTok : List ℤ → ℤ) (ids : List ℤ) : ℕ → List ℤ
  | 0 => ids
  | n + 1 => genIds nextTok ids n ++ [nextTok (genIds nextTok ids n)]

/-! ### Generation-input preparation —
ChatGLMForConditionalGeneration.prepare_inputs_for_generation, lines 812-869,
and ChatGLMPreTrainedModel.get_masks / get_position_ids, lines 559-595 -/

/-- Python's list.index: the first index of v in seq, or a ValueError
(modelled as Except.error) when v does not occur. -/
def pyIndex (seq : List ℤ) (v : ℤ) : Except Unit ℕ :=
  match seq.findIdx? (fun t => t = v) with
  | some i => Except.ok i
  | none => Except.error ()

/-- prepare_inputs_for_generation lines 823-829: for every sequence, pick
gMASK if present else MASK, and look up its first index with list.index —
raising ValueError when the chosen token is absent (i.e. when the sequence
contains neither gMASK nor MASK). -/
def maskPositions (MASK gMASK : ℤ) (seqs : List (List ℤ)) : Except Unit (List ℕ) :=
  seqs.mapM (fun seq => pyIndex seq (if gMASK ∈ seq then gMASK else MASK))

/-- The bos lookups of get_masks line 562 and get_position_ids line 576 (and
of prepare_inputs_for_generation line 842): every sequence's context length
is seq.index(bos), a ValueError when bos is absent. -/
def bosContextLengths (bos : ℤ) (seqs : List (List ℤ)) : Except Unit (List ℕ) :=
  seqs.mapM (fun seq => pyIndex seq bos)

/-- The token-lookup control flow of prepare_inputs_for_generation (lines
812-869), which runs before any forward computation (it is called at the top
of each stream_generate iteration, line 1074).  Mask-token positions are
computed first (lines 823-829).  With start_pos set (decode, lines 833-855):
if no position_ids are supplied, line 842 looks up bos in every sequence.
Without start_pos (prefill, lines 857-869): if no boolean attention mask is
supplied, get_masks looks up bos in every sequence (line 562); if no
position_ids are supplied, get_position_ids does the same (line 576).  The
payload returned is the list of mask positions. -/
def prepare_inputs_for_generation (MASK gMASK bos : ℤ) (seqs : List (List ℤ))
    (amSupplied pidSupplied : Bool) (startPos : Option ℕ) : Except Unit (List ℕ) :=
  match maskPositions MASK gMASK seqs with
  | Except.error e => Except.error e
  | Except.ok mps =>
    match startPos with
    | some _ =>
      if pidSupplied then Except.ok mps
      else
        match bosContextLengths bos seqs with
        | Except.error e => Except.error e
        | Except.ok _ => Except.ok mps
    | none =>
      match (if amSupplied then Except.ok [] else bosContextLengths bos seqs :
          Except Unit (List ℕ)) with
      | Except.error e => Except.error e
      | Except.ok _ =>
        match (if pidSupplied then Except.ok [] else bosContextLengths bos seqs :
            Except Unit (List ℕ)) with
        | Except.error e => Except.error e
        | Except.ok _ => Except.ok mps

/-! ## Theorems -/

/-! ### C1 helpers -/

/-- After a prefill of rows f (length L > 1) and k decode-step writes of rows
g 0, g 1, ... at start_pos L, L+1, ..., slot i of the prefix [0, L+k) holds
f i for i < L and g (i - L) otherwise. -/
theorem decodeWrites_getElem {α : Type} [Zero α] (c0 f g : ℕ → α) (L : ℕ) (hL : 1 < L) :
    ∀ (k i : ℕ), i < L + k →
      decodeWrites (cacheWrite c0 L 0 f) L g k i = if i < L then f i else g (i - L) := by
  intro k
  induction k with
  | zero =>
    intro i hi
    have hiL : i < L := by omega
    simp [decodeWrites, cacheWrite, hL, hiL]
  | succ k ih =>
    intro i hi
    by_cases hik : i = L + k
    · have h1 : ¬ i < L := by omega
      have h2 : i - L = k := by omega
      simp [decodeWrites, cacheWrite, hik, h1, h2]
    · have hrec := ih i (by omega)
      simp only [decodeWrites, cacheWrite]
      simp only [show ¬ (1:ℕ) < 1 by omega, if_false]
      simp only [if_neg hik]
      simp only [decodeWrites, cacheWrite] at hrec
      exact hrec

/-- C1: KV-cache write protocol (SelfAttention.attention_fn, lines 308-320).
The identical write goes to both cache buffers; a decode step (seq_len = 1)
overwrites exactly the slot start_pos with the new row and leaves every other
slot unchanged; a prefill (seq_len > 1) first zeroes the buffer and scatters
the new rows at positions [0, seqLen); and after a prefill of length L
followed by k decode steps at start_pos = L, L+1, ..., L+k-1, the cache
prefix [0, L+k) holds exactly the rows written at each step, in order. -/
theorem kv_cache_write_protocol {α : Type} [Zero α]
    (cacheK cacheV : ℕ → α) (keys vals : ℕ → α) (p j : ℕ)
    (c0 f g : ℕ → α) (L k i : ℕ)
    (hj : j ≠ p) (hL : 1 < L) (hi : i < L + k) :
    cacheWritePair cacheK cacheV 1 p keys vals
        = (cacheWrite cacheK 1 p keys, cacheWrite cacheV 1 p vals)
    ∧ cacheWrite cacheK 1 p keys p = keys 0
    ∧ cacheWrite cacheK 1 p keys j = cacheK j
    ∧ (∀ i2, cacheWrite cacheK L p keys i2 = if i2 < L then keys i2 else 0)
    ∧ decodeWrites (cacheWrite c0 L 0 f) L g k i = if i < L then f i else g (i - L) := by
  refine ⟨rfl, ?_, ?_, ?_, decodeWrites_getElem c0 f g L hL k i hi⟩
  · simp [cacheWrite]
  · simp [cacheWrite, hj]
  · intro i2
    simp [cacheWrite, hL]

/-- Witness for kv_cache_write_protocol: concrete cache over ℤ with a prefill
of length 2 followed by 2 decode steps; slot 3 holds the row written by the
second decode step. -/
theorem kv_cache_write_protocol_witness :
    ((3:ℕ) ≠ 2) ∧ ((1:ℕ) < 2) ∧ ((3:ℕ) < 2 + 2)
    ∧ decodeWrites (cacheWrite (fun _ => (0:ℤ)) 2 0 (fun n => (n:ℤ) + 10)) 2
        (fun n => (n:ℤ) + 100) 2 3
      = if (3:ℕ) < 2 then ((3:ℕ):ℤ) + 10 else (((3:ℕ) - 2 : ℕ) : ℤ) + 100 :=
  ⟨by decide, by decide, by decide,
    (kv_cache_write_protocol (fun _ => (0:ℤ)) (fun _ => 0) (fun n => (n:ℤ) + 1)
      (fun n => (n:ℤ) + 2) 2 3 (fun _ => 0) (fun n => (n:ℤ) + 10)
      (fun n => (n:ℤ) + 100) 2 2 3 (by decide) (by decide) (by decide)).2.2.2.2⟩

/-- C2: mask construction (ChatGLMModel.construct, lines 712-718).  On a
decode step (one token) the supplied mask is ignored and the synthesized row
masks key j exactly when j > start_pos + 1; on a prefill (n > 1 tokens) the
supplied mask is padded on the key axis, so for j < bucketSize a position is
masked per the supplied mask when j < n and unconditionally masked for j in
[n, bucketSize). -/
theorem mask_construction (supplied : ℕ → ℕ → Bool) (n p B q j : ℕ)
    (h1 : 1 < n) (h2 : j < B) :
    (∀ (s : ℕ → ℕ → Bool) (p2 B2 q2 j2 : ℕ),
        construct_attention_mask s 1 p2 B2 q2 j2 = decide (p2 + 1 < j2))
    ∧ construct_attention_mask supplied n p B q j = (if j < n then supplied q j else true) := by
  constructor
  · intro s p2 B2 q2 j2
    simp [construct_attention_mask]
  · simp only [construct_attention_mask, if_pos h1]

/-- Witness for mask_construction: a prefill of 3 tokens into a bucket of 8,
key column 5 (beyond the 3 query columns) is masked. -/
theorem mask_construction_witness :
    ((1:ℕ) < 3) ∧ ((5:ℕ) < 8)
    ∧ construct_attention_mask (fun q2 j2 => decide (j2 ≤ q2)) 3 0 8 1 5
      = (if (5:ℕ) < 3 then decide ((5:ℕ) ≤ 1) else true) :=
  ⟨by decide, by decide,
    (mask_construction (fun q2 j2 => decide (j2 ≤ q2)) 3 0 8 1 5 (by decide) (by decide)).2⟩

/-- C3: attention-score scaling policy (SelfAttention.attention_fn, lines
325-356).  The pre-softmax score of key j is obtained by dividing the query
by sqrt(head_dim) * (layer_id + 1) before the dot product, then setting
masked positions to the finite sentinel -10000.0 (not -inf), then
multiplying by (layer_id + 1) — so a masked position reaches softmax with
score -10000 * (layer_id + 1) — and softmax is applied after all of it. -/
theorem attention_score_scaling (dim numKeys : ℕ) (q : ℕ → ℝ) (k : ℕ → ℕ → ℝ)
    (mask : ℕ → Bool) (hd : ℝ) (l j : ℕ) (hmask : mask j = true) :
    (∀ j2, attention_fn_scores dim q k mask hd l j2
        = (if mask j2 = true then -10000
           else ((List.range dim).map
             (fun d => q d / (Real.sqrt hd * ((l:ℝ) + 1)) * k j2 d)).sum) * ((l:ℝ) + 1))
    ∧ attention_fn_scores dim q k mask hd l j = -10000 * ((l:ℝ) + 1)
    ∧ attention_fn_probs numKeys dim q k mask hd l
        = softmaxR ((List.range numKeys).map (attention_fn_scores dim q k mask hd l)) := by
  refine ⟨fun j2 => rfl, ?_, rfl⟩
  simp [attention_fn_scores, hmask]

/-- Witness for attention_score_scaling: with an all-masked row at layer 0,
key 0 reaches softmax with score -10000 * 1. -/
theorem attention_score_scaling_witness :
    ((fun _ : ℕ => true) 0 = true)
    ∧ attention_fn_scores 1 (fun _ => (1:ℝ)) (fun _ _ => 1) (fun _ => true) 4 0 0
      = -10000 * (((0:ℕ):ℝ) + 1) :=
  ⟨rfl, (attention_score_scaling 1 1 (fun _ => (1:ℝ)) (fun _ _ => 1) (fun _ => true)
    4 0 0 rfl).2.1⟩

/-- C4: scaled residual wiring and the residual scale the code actually uses
(GLMBlock.construct lines 506-539, ChatGLMModel.get_layer lines 637-649).
The wiring is output = mlp_input * alpha + mlp_output with
mlp_input = post-LN(input-LN(x) * alpha + attention(input-LN(x))), but
get_layer builds every GLMBlock without passing num_layers, so the __init__
default 28 applies whatever config.num_layers is: alpha = sqrt 56 for every
layer of every model, and at the claim's failing input of a single-layer
model (config.num_layers = 1) this differs from the claimed sqrt 2. -/
theorem residual_scaling_code_eval :
    (∀ (ln1 ln2 attn mlp : (ℕ → ℝ) → ℕ → ℝ) (cfgNumLayers : ℕ) (x : ℕ → ℝ),
        ChatGLMModel_layer_construct ln1 ln2 attn mlp cfgNumLayers x
          = fun i =>
              ln2 (fun i2 => ln1 x i2 * glmAlpha 28 + attn (ln1 x) i2) i * glmAlpha 28
                + mlp (ln2 (fun i2 => ln1 x i2 * glmAlpha 28 + attn (ln1 x) i2)) i)
    ∧ glmAlpha getLayer_num_layers = Real.sqrt 56
    ∧ glmAlpha 1 = Real.sqrt 2
    ∧ Real.sqrt 56 ≠ Real.sqrt 2 := by
  refine ⟨fun ln1 ln2 attn mlp c x => rfl, ?_, ?_, ?_⟩
  · norm_num [glmAlpha, getLayer_num_layers]
  · norm_num [glmAlpha]
  · have h2 : Real.sqrt 2 < Real.sqrt 56 := Real.sqrt_lt_sqrt (by norm_num) (by norm_num)
    exact fun h => absurd h.symm (ne_of_lt h2)

/-- The count that line 1101 multiplies the unfinished flag by — the number of
configured eos ids the new token differs from — is zero exactly when the
token equals every configured id. -/
theorem eos_diff_count_eq_zero_iff (tok : ℤ) (eos : List ℤ) :
    (eos.map (fun i => if tok = i then 0 else 1)).sum = 0 ↔ ∀ i ∈ eos, tok = i := by
  induction eos with
  | nil => simp
  | cons e es ih =>
    by_cases he : tok = e
    · subst he
      simp [ih]
    · simp [he]

/-- C5 counterexample: with configured eos ids [2, 3], a newly produced token
2 equals one of them, yet the unfinished flag (previously 1) is not cleared:
line 1101 multiplies the flag by sum(next_tokens != i for i in eos_token_id),
which is 1, not 0, when exactly one of the two ids matches. -/
theorem eos_any_match_counterexample :
    ((2:ℤ) ∈ ([2, 3] : List ℤ)) ∧ update_unfinished 1 2 [2, 3] ≠ 0 := by decide

/-- C5 amended: the update of line 1101 clears the unfinished flag exactly
when it was already cleared or the new token equals every configured eos id
(so for a single configured id, exactly on a match; with several distinct
ids a match never clears it); and a finished element stays finished. -/
theorem eos_marking_amended (u : ℕ) (tok : ℤ) (eos : List ℤ) (e : ℤ) :
    (update_unfinished u tok eos = 0 ↔ u = 0 ∨ ∀ i ∈ eos, tok = i)
    ∧ update_unfinished 0 tok eos = 0
    ∧ (update_unfinished u tok [e] = 0 ↔ u = 0 ∨ tok = e) := by
  refine ⟨?_, by simp [update_unfinished], ?_⟩
  · rw [update_unfinished, Nat.mul_eq_zero, eos_diff_count_eq_zero_iff]
  · rw [update_unfinished, Nat.mul_eq_zero]
    by_cases he : tok = e <;> simp [he]

/-- Witness for eos_marking_amended: a single configured eos id 7 and token 7
clear the flag. -/
theorem eos_marking_amended_witness :
    update_unfinished 1 7 [(7:ℤ)] = 0 :=
  (eos_marking_amended 1 7 [7] 7).2.2.mpr (Or.inr rfl)

/-- C6: the start_pos values the stream_generate loop passes to its forward
calls, evaluated at the 3-token prompt [9, 9, 9] (next token always 0, eos
id 1 never produced, max length 6).  The prefill itself runs with
start_pos = 0, but the first decode step receives start_pos = 4
= prompt_length + 1, not the claimed prompt_length = 3: line 1096 appends
the sampled token and line 1097 then stores the grown length. -/
theorem prefill_decode_start_pos_eval :
    (stream_generate (fun _ => (0:ℤ)) [1] (maxLengthCriteria 6) 10 [9, 9, 9]).startPosTrace
      = [0, 4, 5]
    ∧ (stream_generate (fun _ => (0:ℤ)) [1] (maxLengthCriteria 6) 10
        [9, 9, 9]).startPosTrace.getD 1 0 = 4
    ∧ (4:ℕ) ≠ 3 := by
  refine ⟨by decide, by decide, by decide⟩

/-- Length of the driver's token sequence after n steps. -/
theorem genIds_length (nextTok : List ℤ → ℤ) (ids : List ℤ) :
    ∀ n, (genIds nextTok ids n).length = ids.length + n := by
  intro n
  induction n with
  | zero => rfl
  | succ n ih =>
    simp only [genIds, List.length_append, ih, List.length_cons, List.length_nil]
    omega

/-- Driver steps compose: n steps from the state after m steps are m + n
steps. -/
theorem genIds_add (nextTok : List ℤ → ℤ) (ids : List ℤ) (m : ℕ) :
    ∀ n, genIds nextTok (genIds nextTok ids m) n = genIds nextTok ids (m + n) := by
  intro n
  induction n with
  | zero => rfl
  | succ n ih =>
    simp only [genIds, ih, Nat.add_succ]
    rfl

/-- When the new token differs from every configured eos id, the count of
line 1101 is the number of configured ids. -/
theorem eos_diff_count_of_not_mem (tok : ℤ) (eos : List ℤ) (h : tok ∉ eos) :
    (eos.map (fun i => if tok = i then 0 else 1)).sum = eos.length := by
  induction eos with
  | nil => rfl
  | cons e es ih =>
    simp only [List.mem_cons, not_or] at h
    simp only [List.map_cons, List.sum_cons, List.length_cons, if_neg h.1, ih h.2]
    omega

/-- Helper for C7: from any loop state whose sequence is shorter than the
maximum length L, with a nonzero unfinished flag, sampled tokens that never
hit an eos id, and enough fuel, the stream_generate loop stops with the
sequence grown to exactly length L and yields each intermediate grown
sequence except the final one (the break at lines 1104-1105 precedes the
yield at line 1106). -/
theorem streamGenerateLoop_maxLength (nextTok : List ℤ → ℤ) (eos : List ℤ) (L : ℕ)
    (heos : eos ≠ []) (htok : ∀ s, nextTok s ∉ eos) :
    ∀ (fuel : ℕ) (ids : List ℤ) (kw : Option ℕ) (u : ℕ), u ≠ 0 →
      ids.length < L → L ≤ ids.length + fuel →
      (streamGenerateLoop nextTok eos (maxLengthCriteria L) fuel ids kw u).inputIds
          = genIds nextTok ids (L - ids.length)
        ∧ (streamGenerateLoop nextTok eos (maxLengthCriteria L) fuel ids kw u).yields
          = (List.range (L - ids.length - 1)).map (fun j => genIds nextTok ids (j + 1)) := by
  intro fuel
  induction fuel with
  | zero =>
    intro ids kw u hu hlt hle
    omega
  | succ fuel ih =>
    intro ids kw u hu hlt hle
    have hu2 : update_unfinished u (nextTok ids) eos ≠ 0 := by
      rw [update_unfinished, eos_diff_count_of_not_mem _ _ (htok ids)]
      have hne : eos.length ≠ 0 := by
        cases eos with
        | nil => exact absurd rfl heos
        | cons a l => simp
      exact Nat.mul_ne_zero hu hne
    have hlen2 : (ids ++ [nextTok ids]).length = ids.length + 1 := by simp
    have hids1 : genIds nextTok ids 1 = ids ++ [nextTok ids] := by simp [genIds]
    by_cases hstop : L ≤ ids.length + 1
    · have hcond : update_unfinished u (nextTok ids) eos = 0
          ∨ maxLengthCriteria L (ids ++ [nextTok ids]) = true := by
        right
        simp only [maxLengthCriteria, hlen2, decide_eq_true_eq]
        exact hstop
      have hd1 : L - ids.length = 1 := by omega
      constructor
      · simp only [streamGenerateLoop, if_pos hcond, hd1]
        exact hids1.symm
      · simp only [streamGenerateLoop, if_pos hcond, hd1]
        simp
    · have hcond : ¬ (update_unfinished u (nextTok ids) eos = 0
          ∨ maxLengthCriteria L (ids ++ [nextTok ids]) = true) := by
        push_neg
        refine ⟨hu2, ?_⟩
        simpa [maxLengthCriteria, hlen2] using hstop
      have hrec := ih (ids ++ [nextTok ids]) (some (ids ++ [nextTok ids]).length)
        (update_unfinished u (nextTok ids) eos) hu2
        (by rw [hlen2]; omega) (by rw [hlen2]; omega)
      have hstep : ∀ j, genIds nextTok (ids ++ [nextTok ids]) (j + 1)
          = genIds nextTok ids (j + 2) := by
        intro j
        rw [← hids1, genIds_add]
        congr 1
        omega
      constructor
      · simp only [streamGenerateLoop, if_neg hcond]
        rw [hrec.1, hlen2, ← hids1, genIds_add]
        congr 1
        omega
      · simp only [streamGenerateLoop, if_neg hcond]
        rw [hrec.2, hlen2]
        have hd1 : L - ids.length - 1 = (L - (ids.length + 1) - 1) + 1 := by omega
        have hfun : (fun j => genIds nextTok (ids ++ [nextTok ids]) (j + 1))
            = ((fun j => genIds nextTok ids (j + 1)) ∘ Nat.succ) := by
          funext j
          simp only [Function.comp_apply]
          exact hstep j
        rw [hd1, List.range_succ_eq_map, List.map_cons, List.map_map, hfun]
        simp [genIds]

/-- C7 counterexample: prompt [5] (length 1), max length L = 2, greedy token
always 9, eos id 2 never produced.  The driver appends exactly
L - prompt_length = 1 token, but yields no sequence at all — not one yielded
sequence per emitted token — because the break at lines 1104-1105 runs
before the yield at line 1106. -/
theorem generation_emission_counterexample :
    (stream_generate (fun _ => (9:ℤ)) [2] (maxLengthCriteria 2) 5 [5]).inputIds.length = 2
    ∧ (stream_generate (fun _ => (9:ℤ)) [2] (maxLengthCriteria 2) 5 [5]).yields.length = 0
    ∧ ¬ ((stream_generate (fun _ => (9:ℤ)) [2] (maxLengthCriteria 2) 5 [5]).yields.length
        = 2 - 1) := by
  refine ⟨by decide, by decide, by decide⟩

/-- C7 amended: with the max-length stopping criterion (max length
L > prompt length), greedy tokens that never match an eos id, and enough
fuel, the driver appends exactly L - prompt_length tokens, stopping
exactly when the sequence length reaches L, and yields each grown sequence
of every completed step except the final one — L - prompt_length - 1
yielded sequences, the last appended token's sequence never being
yielded. -/
theorem generation_termination_amended (nextTok : List ℤ → ℤ) (eos : List ℤ)
    (prompt : List ℤ) (L fuel : ℕ)
    (heos : eos ≠ []) (htok : ∀ s, nextTok s ∉ eos)
    (hP : prompt.length < L) (hfuel : L ≤ prompt.length + fuel) :
    (stream_generate nextTok eos (maxLengthCriteria L) fuel prompt).inputIds
        = genIds nextTok prompt (L - prompt.length)
    ∧ (stream_generate nextTok eos (maxLengthCriteria L) fuel prompt).inputIds.length = L
    ∧ (stream_generate nextTok eos (maxLengthCriteria L) fuel prompt).yields
        = (List.range (L - prompt.length - 1)).map (fun j => genIds nextTok prompt (j + 1))
    ∧ (stream_generate nextTok eos (maxLengthCriteria L) fuel prompt).yields.length
        = L - prompt.length - 1 := by
  have h := streamGenerateLoop_maxLength nextTok eos L heos htok fuel prompt none 1
    (by omega) hP hfuel
  refine ⟨h.1, ?_, h.2, ?_⟩
  · simp only [stream_generate] at h ⊢
    rw [h.1, genIds_length]
    omega
  · simp only [stream_generate] at h ⊢
    rw [h.2]
    simp

/-- Witness for generation_termination_amended: prompt [5, 6], max length 5,
token 9, eos id 2: the final sequence has length 5 (3 tokens appended). -/
theorem generation_termination_amended_witness :
    (([2] : List ℤ) ≠ []) ∧ ((2:ℕ) < 5) ∧ ((5:ℕ) ≤ 2 + 10)
    ∧ (stream_generate (fun _ => (9:ℤ)) [2] (maxLengthCriteria 5) 10
        [5, 6]).inputIds.length = 5 :=
  ⟨by decide, by decide, by decide,
    (generation_termination_amended (fun _ => (9:ℤ)) [2] [5, 6] 5 10 (by decide)
      (fun s => by show (9:ℤ) ∉ [2]; decide) (by decide) (by decide)).2.1⟩

/-- getD through a map, in bounds (defaults are then irrelevant). -/
theorem getD_map_of_lt {α β : Type} (f : α → β) (l : List α) (dβ : β) (dα : α)
    (n : ℕ) (h : n < l.length) : (l.map f).getD n dβ = f (l.getD n dα) := by
  rw [List.getD_eq_getElem _ _ (by simpa using h), List.getD_eq_getElem _ _ h]
  simp

/-- getD into a range, in bounds. -/
theorem getD_range_of_lt (m n : ℕ) (h : n < m) : (List.range m).getD n 0 = n := by
  rw [List.getD_eq_getElem _ _ (by simpa using h)]
  simp

/-- Dividing every exponential by S and summing is summing then dividing. -/
theorem sum_map_div_exp (xs : List ℝ) (S : ℝ) :
    (xs.map (fun x => Real.exp x / S)).sum = (xs.map Real.exp).sum / S := by
  induction xs with
  | nil => simp
  | cons a l ih => simp [ih, div_add_div_same]

/-- The exponential sum over a nonempty list is positive. -/
theorem exp_sum_pos (xs : List ℝ) (h : xs ≠ []) : 0 < (xs.map Real.exp).sum := by
  apply List.sum_pos
  · intro x hx
    obtain ⟨y, _, rfl⟩ := List.mem_map.mp hx
    exact Real.exp_pos y
  · simpa using h

/-- Softmax entries over a nonempty list sum to 1. -/
theorem softmaxR_sum (xs : List ℝ) (h : xs ≠ []) : (softmaxR xs).sum = 1 := by
  rw [softmaxR, sum_map_div_exp, div_self (ne_of_gt (exp_sum_pos xs h))]

/-- Softmax entry n, in bounds: the exponential of entry n over the
exponential sum. -/
theorem softmaxR_getD (xs : List ℝ) (n : ℕ) (h : n < xs.length) :
    (softmaxR xs).getD n 0 = Real.exp (xs.getD n 0) / (xs.map Real.exp).sum := by
  rw [softmaxR]
  exact getD_map_of_lt _ xs 0 0 n h

/-- C8 counterexample: the NaN-containing score row [NaN, 1, 2, 3, 4, 5] is
replaced by the row with 5e4 at index 5 and 0 elsewhere, but exact softmax
of the substituted row does not put all its mass on token 5: entry 0 stays
strictly positive, hence entry 5 is strictly below 1. -/
theorem degenerate_guard_counterexample :
    invalid_score_process [FVal.nan, FVal.fin 1, FVal.fin 2, FVal.fin 3, FVal.fin 4, FVal.fin 5]
      = [FVal.fin 0, FVal.fin 0, FVal.fin 0, FVal.fin 0, FVal.fin 0, FVal.fin 50000]
    ∧ 0 < (softmaxR ((invalid_score_process [FVal.nan, FVal.fin 1, FVal.fin 2, FVal.fin 3,
        FVal.fin 4, FVal.fin 5]).map FVal.toReal)).getD 0 0
    ∧ (softmaxR ((invalid_score_process [FVal.nan, FVal.fin 1, FVal.fin 2, FVal.fin 3,
        FVal.fin 4, FVal.fin 5]).map FVal.toReal)).getD 5 0 < 1 := by
  have hproc : invalid_score_process [FVal.nan, FVal.fin 1, FVal.fin 2, FVal.fin 3,
      FVal.fin 4, FVal.fin 5]
      = [FVal.fin 0, FVal.fin 0, FVal.fin 0, FVal.fin 0, FVal.fin 0, FVal.fin 50000] := by
    decide
  have hmap : ([FVal.fin 0, FVal.fin 0, FVal.fin 0, FVal.fin 0, FVal.fin 0,
      FVal.fin 50000].map FVal.toReal) = [(0:ℝ), 0, 0, 0, 0, 50000] := by
    norm_num [FVal.toReal]
  have hS : 0 < (([(0:ℝ), 0, 0, 0, 0, 50000]).map Real.exp).sum :=
    exp_sum_pos _ (by simp)
  refine ⟨hproc, ?_, ?_⟩
  · rw [hproc, hmap, softmaxR_getD _ 0 (by norm_num)]
    exact div_pos (Real.exp_pos _) hS
  · rw [hproc, hmap, softmaxR_getD _ 5 (by norm_num)]
    rw [div_lt_one hS]
    have hg : ([(0:ℝ), 0, 0, 0, 0, 50000]).getD 5 0 = 50000 := rfl
    rw [hg]
    simp only [List.map_cons, List.map_nil, List.sum_cons, List.sum_nil]
    have h0 := Real.exp_pos (0:ℝ)
    linarith

/-- C8 amended: on a score row containing a NaN or an Inf, the processor
returns the row with 5e4 at the fixed safe index 5 and 0 everywhere else
(every entry finite, no NaN or Inf left), and exact softmax of that row is
a proper probability distribution — it sums to 1 and each entry is strictly
positive — with the fallback token holding the strictly largest probability
(all other entries are exponentially small but nonzero, so the mass is not
exactly all on token 5). -/
theorem degenerate_guard_amended (scores : List FVal) (V j : ℕ)
    (hlen : scores.length = V)
    (hinv : scores.any (fun v => v.isNaN || v.isInfVal) = true)
    (h5 : 5 < V) (hj : j < V) (hj5 : j ≠ 5) :
    invalid_score_process scores
        = (List.range V).map (fun i => if i = 5 then FVal.fin 50000 else FVal.fin 0)
    ∧ (∀ v ∈ invalid_score_process scores, v.isNaN = false ∧ v.isInfVal = false)
    ∧ (softmaxR ((invalid_score_process scores).map FVal.toReal)).sum = 1
    ∧ 0 < (softmaxR ((invalid_score_process scores).map FVal.toReal)).getD j 0
    ∧ (softmaxR ((invalid_score_process scores).map FVal.toReal)).getD j 0
        < (softmaxR ((invalid_score_process scores).map FVal.toReal)).getD 5 0 := by
  have hproc : invalid_score_process scores
      = (List.range V).map (fun i => if i = 5 then FVal.fin 50000 else FVal.fin 0) := by
    rw [invalid_score_process, if_pos hinv, hlen]
  have hfun2 : (FVal.toReal ∘ (fun i : ℕ => if i = 5 then FVal.fin 50000 else FVal.fin 0))
      = (fun i : ℕ => if i = 5 then (50000:ℝ) else 0) := by
    funext i
    by_cases hi : i = 5 <;> norm_num [hi, FVal.toReal]
  have hxs : ((invalid_score_process scores).map FVal.toReal)
      = (List.range V).map (fun i : ℕ => if i = 5 then (50000:ℝ) else 0) := by
    rw [hproc, List.map_map, hfun2]
  have hxlen : ((invalid_score_process scores).map FVal.toReal).length = V := by
    simp [hxs]
  have hne : ((invalid_score_process scores).map FVal.toReal) ≠ [] := by
    rw [hxs]
    intro hcon
    have := congrArg List.length hcon
    simp at this
    omega
  have hSpos : 0 < ((((invalid_score_process scores).map FVal.toReal)).map Real.exp).sum :=
    exp_sum_pos _ hne
  have hgj : ((invalid_score_process scores).map FVal.toReal).getD j 0 = 0 := by
    rw [hxs, getD_map_of_lt _ _ 0 0 j (by simpa using hj), getD_range_of_lt V j hj]
    simp [hj5]
  have hg5 : ((invalid_score_process scores).map FVal.toReal).getD 5 0 = 50000 := by
    rw [hxs, getD_map_of_lt _ _ 0 0 5 (by simpa using h5), getD_range_of_lt V 5 h5]
    simp
  refine ⟨hproc, ?_, softmaxR_sum _ hne, ?_, ?_⟩
  · rw [hproc]
    intro v hv
    obtain ⟨i, _, rfl⟩ := List.mem_map.mp hv
    by_cases hi : i = 5 <;> simp [hi, FVal.isNaN, FVal.isInfVal]
  · rw [softmaxR_getD _ j (by omega), hgj]
    exact div_pos (Real.exp_pos _) hSpos
  · rw [softmaxR_getD _ j (by omega), softmaxR_getD _ 5 (by omega), hgj, hg5]
    exact div_lt_div_of_pos_right (Real.exp_lt_exp.mpr (by norm_num)) hSpos

/-- Witness for degenerate_guard_amended at the forced-NaN row of width 6 and
non-fallback index 0. -/
theorem degenerate_guard_amended_witness :
    ([FVal.nan, FVal.fin 1, FVal.fin 2, FVal.fin 3, FVal.fin 4, FVal.fin 5].any
        (fun v => v.isNaN || v.isInfVal) = true)
    ∧ ((0:ℕ) ≠ 5)
    ∧ (softmaxR ((invalid_score_process [FVal.nan, FVal.fin 1, FVal.fin 2, FVal.fin 3,
        FVal.fin 4, FVal.fin 5]).map FVal.toReal)).sum = 1 :=
  ⟨by decide, by decide,
    (degenerate_guard_amended [FVal.nan, FVal.fin 1, FVal.fin 2, FVal.fin 3, FVal.fin 4,
      FVal.fin 5] 6 0 (by decide) (by decide) (by decide) (by decide) (by decide)).2.2.1⟩

/-- Entry i of row p of the frequency table: p times inverse frequency i. -/
theorem freqs_row_getD (dim : ℕ) (base : ℝ) (p i : ℕ) (h : i < dim / 2) :
    (freqs_row dim base p).getD i 0
      = (p:ℝ) * (1 / base ^ (((2 * i : ℕ) : ℝ) / (dim : ℝ))) := by
  rw [freqs_row, getD_map_of_lt _ _ 0 0 i (by simpa [inv_freq] using h)]
  rw [inv_freq, getD_map_of_lt _ _ 0 0 i (by simpa using h), getD_range_of_lt _ i h]

/-- Entry d of row p of emb = concat(freqs, freqs): the frequencies are
duplicated, so entry d uses inverse frequency d mod (dim / 2). -/
theorem emb_row_getD (dim : ℕ) (base : ℝ) (p d : ℕ)
    (hbase : 0 < base) (hd : d < dim) (heven : dim % 2 = 0) :
    (freqs_row dim base p ++ freqs_row dim base p).getD d 0
      = (p:ℝ) * base ^ (-(((2 * (d % (dim / 2)) : ℕ) : ℝ) / (dim : ℝ))) := by
  have hm : dim = 2 * (dim / 2) := by omega
  have hfrlen : (freqs_row dim base p).length = dim / 2 := by
    simp [freqs_row, inv_freq]
  by_cases hcase : d < dim / 2
  · rw [List.getD_append _ _ _ _ (by rw [hfrlen]; exact hcase)]
    rw [freqs_row_getD dim base p d hcase, Nat.mod_eq_of_lt hcase]
    rw [Real.rpow_neg hbase.le, one_div]
  · have hge : dim / 2 ≤ d := by omega
    have hlt2 : d - dim / 2 < dim / 2 := by omega
    have hmod : d % (dim / 2) = d - dim / 2 := by
      rw [Nat.mod_eq_sub_mod hge, Nat.mod_eq_of_lt hlt2]
    rw [List.getD_append_right _ _ _ _ (by rw [hfrlen]; exact hge), hfrlen]
    rw [freqs_row_getD dim base p _ hlt2, hmod]
    rw [Real.rpow_neg hbase.le, one_div]

/-- C9: rotary embedding definition (RotaryEmbedding lines 131-145,
rotate_half lines 147-150, apply_rotary_pos_emb_index lines 152-159).
For even dim and position p, the cached cosine/sine row has length dim and
entry d equal to cos/sin of p * theta with theta = base ^ (-2 (d mod
(dim/2)) / dim) — the dim/2 frequencies duplicated across the row; rotate
half maps x = [x1, x2] (equal halves) to [-x2, x1]; and the applied rotation
is q * cos(p) + rotate_half q * sin(p) (and the same for k), elementwise. -/
theorem rotary_embedding_definition (dim : ℕ) (base : ℝ) (p d : ℕ)
    (x1 x2 q k : List ℝ)
    (hbase : 0 < base) (hd : d < dim) (heven : dim % 2 = 0)
    (hlen : x1.length = x2.length) :
    (cos_cached dim base p).length = dim
    ∧ (cos_cached dim base p).getD d 0
        = Real.cos ((p:ℝ) * base ^ (-(((2 * (d % (dim / 2)) : ℕ) : ℝ) / (dim : ℝ))))
    ∧ (sin_cached dim base p).getD d 0
        = Real.sin ((p:ℝ) * base ^ (-(((2 * (d % (dim / 2)) : ℕ) : ℝ) / (dim : ℝ))))
    ∧ rotate_half (x1 ++ x2) = x2.map (fun v => -v) ++ x1
    ∧ apply_rotary_pos_emb_index q k (cos_cached dim base p) (sin_cached dim base p)
        = (List.zipWith (fun a b => a + b)
             (List.zipWith (fun a b => a * b) q (cos_cached dim base p))
             (List.zipWith (fun a b => a * b) (rotate_half q) (sin_cached dim base p)),
           List.zipWith (fun a b => a + b)
             (List.zipWith (fun a b => a * b) k (cos_cached dim base p))
             (List.zipWith (fun a b => a * b) (rotate_half k) (sin_cached dim base p))) := by
  have hemblen : (freqs_row dim base p ++ freqs_row dim base p).length = dim := by
    simp [freqs_row, inv_freq]
    omega
  refine ⟨?_, ?_, ?_, ?_, rfl⟩
  · simp only [cos_cached, List.length_map]
    exact hemblen
  · rw [cos_cached, getD_map_of_lt _ _ 0 0 d (by rw [hemblen]; exact hd)]
    rw [emb_row_getD dim base p d hbase hd heven]
  · rw [sin_cached, getD_map_of_lt _ _ 0 0 d (by rw [hemblen]; exact hd)]
    rw [emb_row_getD dim base p d hbase hd heven]
  · have hhalf : (x1 ++ x2).length / 2 = x1.length := by
      simp only [List.length_append, hlen]
      omega
    rw [rotate_half, hhalf, List.drop_left, List.take_left]

/-- Witness for rotary_embedding_definition at dim 2, base 10000, position 0,
entry 1, and the two-element vector [1] ++ [2]. -/
theorem rotary_embedding_definition_witness :
    ((0:ℝ) < 10000) ∧ ((1:ℕ) < 2) ∧ ((2:ℕ) % 2 = 0)
    ∧ rotate_half ([(1:ℝ)] ++ [(2:ℝ)]) = [(2:ℝ)].map (fun v => -v) ++ [(1:ℝ)] :=
  ⟨by norm_num, by decide, by decide,
    (rotary_embedding_definition 2 10000 0 1 [(1:ℝ)] [(2:ℝ)] [] []
      (by norm_num) (by decide) (by decide) rfl).2.2.2.1⟩

/-- Python list.index raises (ValueError) exactly on a missing value:
absent case. -/
theorem pyIndex_eq_error (seq : List ℤ) (v : ℤ) (h : v ∉ seq) :
    pyIndex seq v = Except.error () := by
  have hnone : seq.findIdx? (fun t => t = v) = none := by
    rw [List.findIdx?_eq_none_iff]
    intro x hx
    simp only [decide_eq_false_iff_not]
    exact fun hxv => h (hxv ▸ hx)
  rw [pyIndex, hnone]

/-- Python list.index succeeds on a present value. -/
theorem pyIndex_eq_ok (seq : List ℤ) (v : ℤ) (h : v ∈ seq) :
    ∃ i, pyIndex seq v = Except.ok i := by
  have hsome : (seq.findIdx? (fun t => t = v)).isSome := by
    rw [List.findIdx?_isSome]
    simpa using h
  obtain ⟨i, hi⟩ := Option.isSome_iff_exists.mp hsome
  exact ⟨i, by rw [pyIndex, hi]⟩

/-- A mapM over Except fails when some element fails. -/
theorem mapM_error_of_mem {α : Type} (f : α → Except Unit ℕ) (l : List α) (x : α)
    (hx : x ∈ l) (hf : f x = Except.error ()) : l.mapM f = Except.error () := by
  induction l with
  | nil => simp at hx
  | cons a l ih =>
    rw [List.mapM_cons]
    rcases List.mem_cons.mp hx with h1 | h1
    · subst h1
      rw [hf]
      rfl
    · cases hfa : f a with
      | error e => cases e; rfl
      | ok y =>
        rw [ih h1]
        rfl

/-- A mapM over Except succeeds when every element succeeds. -/
theorem mapM_ok_of_forall {α : Type} (f : α → Except Unit ℕ) (l : List α)
    (h : ∀ x ∈ l, ∃ y, f x = Except.ok y) : ∃ ys, l.mapM f = Except.ok ys := by
  induction l with
  | nil => exact ⟨[], rfl⟩
  | cons a l ih =>
    obtain ⟨y, hy⟩ := h a (List.mem_cons_self a l)
    obtain ⟨ys, hys⟩ := ih (fun x hx => h x (List.mem_cons_of_mem a hx))
    exact ⟨y :: ys, by rw [List.mapM_cons, hy, hys]; rfl⟩

/-- The mask-token lookup of lines 823-829 raises when some sequence holds
neither gMASK nor MASK. -/
theorem maskPositions_error (MASK gMASK : ℤ) (seqs : List (List ℤ)) (bad : List ℤ)
    (hmem : bad ∈ seqs) (h1 : gMASK ∉ bad) (h2 : MASK ∉ bad) :
    maskPositions MASK gMASK seqs = Except.error () := by
  apply mapM_error_of_mem _ _ bad hmem
  show pyIndex bad (if gMASK ∈ bad then gMASK else MASK) = Except.error ()
  rw [if_neg h1]
  exact pyIndex_eq_error bad MASK h2

/-- The mask-token lookup succeeds when every sequence holds gMASK or MASK. -/
theorem maskPositions_ok (MASK gMASK : ℤ) (seqs : List (List ℤ))
    (h : ∀ seq ∈ seqs, gMASK ∈ seq ∨ MASK ∈ seq) :
    ∃ mps, maskPositions MASK gMASK seqs = Except.ok mps := by
  apply mapM_ok_of_forall
  intro x hx
  show ∃ y, pyIndex x (if gMASK ∈ x then gMASK else MASK) = Except.ok y
  by_cases hg : gMASK ∈ x
  · rw [if_pos hg]
    exact pyIndex_eq_ok x gMASK hg
  · rw [if_neg hg]
    rcases h x hx with hc | hc
    · exact absurd hc hg
    · exact pyIndex_eq_ok x MASK hc

/-- The bos lookups raise when some sequence lacks bos. -/
theorem bosContextLengths_error (bos : ℤ) (seqs : List (List ℤ)) (bad : List ℤ)
    (hmem : bad ∈ seqs) (h : bos ∉ bad) :
    bosContextLengths bos seqs = Except.error () :=
  mapM_error_of_mem _ _ bad hmem (pyIndex_eq_error bad bos h)

/-- The bos lookups succeed when every sequence holds bos. -/
theorem bosContextLengths_ok (bos : ℤ) (seqs : List (List ℤ))
    (h : ∀ seq ∈ seqs, bos ∈ seq) :
    ∃ cls, bosContextLengths bos seqs = Except.ok cls :=
  mapM_ok_of_forall _ _ (fun x hx => pyIndex_eq_ok x bos (h x hx))

/-- C10: implicit prompt-content precondition
(prepare_inputs_for_generation lines 821-869, get_masks line 562,
get_position_ids line 576).  Every input sequence must contain the mask or
gmask token; with no boolean attention mask supplied on a prefill, and in
mask/position-id construction on a decode step without supplied position
ids, every sequence must also contain the bos token; a missing required
token makes the index lookup raise ValueError before any forward
computation, while full preconditions let preparation succeed. -/
theorem prompt_token_precondition (MASK gMASK bos : ℤ) (seqs : List (List ℤ))
    (amSupplied pidSupplied : Bool) (startPos : Option ℕ) (bad : List ℤ)
    (hmem : bad ∈ seqs) :
    (gMASK ∉ bad ∧ MASK ∉ bad →
        prepare_inputs_for_generation MASK gMASK bos seqs amSupplied pidSupplied startPos
          = Except.error ())
    ∧ (bos ∉ bad → amSupplied = false →
        prepare_inputs_for_generation MASK gMASK bos seqs amSupplied pidSupplied none
          = Except.error ())
    ∧ (bos ∉ bad → pidSupplied = false → ∀ sp : ℕ,
        prepare_inputs_for_generation MASK gMASK bos seqs amSupplied pidSupplied (some sp)
          = Except.error ())
    ∧ ((∀ seq ∈ seqs, (gMASK ∈ seq ∨ MASK ∈ seq) ∧ bos ∈ seq) →
        ∃ mps, prepare_inputs_for_generation MASK gMASK bos seqs amSupplied pidSupplied
          startPos = Except.ok mps) := by
  refine ⟨?_, ?_, ?_, ?_⟩
  · intro hmask
    have hmp := maskPositions_error MASK gMASK seqs bad hmem hmask.1 hmask.2
    simp [prepare_inputs_for_generation, hmp]
  · intro hbos ham
    have hbc := bosContextLengths_error bos seqs bad hmem hbos
    cases hmp : maskPositions MASK gMASK seqs with
    | error e =>
      cases e
      simp [prepare_inputs_for_generation, hmp]
    | ok mps =>
      simp [prepare_inputs_for_generation, hmp, ham, hbc]
  · intro hbos hpid sp
    have hbc := bosContextLengths_error bos seqs bad hmem hbos
    cases hmp : maskPositions MASK gMASK seqs with
    | error e =>
      cases e
      simp [prepare_inputs_for_generation, hmp]
    | ok mps =>
      simp [prepare_inputs_for_generation, hmp, hpid, hbc]
  · intro hall
    obtain ⟨mps, hmp⟩ := maskPositions_ok MASK gMASK seqs (fun s hs => (hall s hs).1)
    obtain ⟨cls, hcl⟩ := bosContextLengths_ok bos seqs (fun s hs => (hall s hs).2)
    refine ⟨mps, ?_⟩
    cases startPos with
    | none => cases amSupplied <;> cases pidSupplied <;>
        simp [prepare_inputs_for_generation, hmp, hcl]
    | some sp => cases pidSupplied <;>
        simp [prepare_inputs_for_generation, hmp, hcl]

/-- Witness for prompt_token_precondition: the sequence [5, 3] contains
neither gMASK = 2 nor MASK = 1, so preparation raises. -/
theorem prompt_token_precondition_witness :
    ((2:ℤ) ∉ ([5, 3] : List ℤ)) ∧ ((1:ℤ) ∉ ([5, 3] : List ℤ))
    ∧ prepare_inputs_for_generation 1 2 3 [[5, 3]] false false none = Except.error () :=
  ⟨by decide, by decide,
    (prompt_token_precondition 1 2 3 [[5, 3]] false false none [5, 3] (by decide)).1
      ⟨by decide, by decide⟩⟩

end ChatGLM
